import Mathlib

/-!
# Verification of the Bible reading application's resolution, pagination and
parsing layer

This file gives a shallow embedding, in Lean 4, of the book/verse resolution
and pagination layer of the `leognmotta/bible` repository:

* `apps/web/lib/api/book-abbreviations.ts` — alias table and normalization;
* `apps/web/lib/api/bible-utils.ts` — book/chapter/verse lookup, pagination,
  formatting, search, multi-chapter fetch, translation cache;
* the verse-range parser of `app/[book]/[chapter]/[verses]/page.tsx`.

JavaScript strings are modelled as Lean `String`s whose operations
(`toLowerCase`, `trim`, `split`, `includes`, regex digit tests) are
implemented over the underlying character list, so that every definition is
executable and kernel-reducible.  JavaScript numbers used as chapter/verse
indices are modelled as `Int` (they are integral at every call site), and
thrown `NotFoundError`/`ValidationError` exceptions as an `Except` error
type.
-/

/-! ## JavaScript string primitives, modelled over character lists -/

/-- Embedding of `String.prototype.toLowerCase` (ASCII case folding). -/
def jsLower (s : String) : String := ⟨s.data.map Char.toLower⟩

/-- Whitespace test used by the embedding of `String.prototype.trim`. -/
def isJsSpace (c : Char) : Bool := c.isWhitespace

/-- Drop whitespace from both ends of a character list. -/
def trimChars (l : List Char) : List Char :=
  ((l.dropWhile isJsSpace).reverse.dropWhile isJsSpace).reverse

/-- Embedding of `String.prototype.trim`. -/
def jsTrim (s : String) : String := ⟨trimChars s.data⟩

/-- Embedding of `String.prototype.includes`: substring containment. -/
def jsIncludes (hay needle : String) : Bool := decide (needle.data <:+: hay.data)

/-- Embedding of `String.prototype.split` with a one-character separator:
always returns at least one (possibly empty) field. -/
def splitOnChar (sep : Char) : List Char → List (List Char)
  | [] => [[]]
  | c :: rest =>
    if c = sep then [] :: splitOnChar sep rest
    else
      match splitOnChar sep rest with
      | [] => [[c]]
      | t :: ts => (c :: t) :: ts

/-- Embedding of `Array.prototype.join` with a one-character separator. -/
def joinWithChar (sep : Char) : List (List Char) → List Char
  | [] => []
  | [p] => p
  | p :: ps => p ++ sep :: joinWithChar sep ps

/-- The regex class `\d` applied to a whole token: all characters are ASCII
digits. -/
def allDigitsB (l : List Char) : Bool := l.all (·.isDigit)

/-- Embedding of `parseInt(s, 10)` on an all-digit token. -/
def parseIntDigits (l : List Char) : Nat :=
  l.foldl (fun a c => a * 10 + (c.toNat - 48)) 0

/-- The decimal digit characters, used to embed JavaScript's number-to-string
conversion. -/
def digitChar (d : Nat) : Char :=
  match d with
  | 0 => '0' | 1 => '1' | 2 => '2' | 3 => '3' | 4 => '4'
  | 5 => '5' | 6 => '6' | 7 => '7' | 8 => '8' | _ => '9'

/-- Fuel-driven digit printer: the decimal digits of `n`, most significant
first, empty for `n = 0`.  The fuel argument only forces termination; it is
irrelevant as soon as it exceeds `n`. -/
def natToCharsAux : Nat → Nat → List Char
  | 0, _ => []
  | fuel + 1, n =>
    if n = 0 then [] else natToCharsAux fuel (n / 10) ++ [digitChar (n % 10)]

/-- Embedding of `String(n)` for a natural number: its decimal digits,
most significant first. -/
def natToChars (n : Nat) : List Char :=
  if n = 0 then ['0'] else natToCharsAux (n + 1) n

/-! ## Verse-range parser
(`parseVerseRange` in `app/[book]/[chapter]/[verses]/page.tsx`) -/

/-- The regex `^(\d+)-(\d+)$` of `parseVerseRange`: the token is two
non-empty digit runs separated by a single hyphen; on a match, return the two
runs. -/
def isRangeToken (t : List Char) : Option (List Char × List Char) :=
  match splitOnChar '-' t with
  | [a, b] =>
    if !a.isEmpty && allDigitsB a && !b.isEmpty && allDigitsB b then some (a, b)
    else none
  | _ => none

/-- One iteration of the `for (const part of parts)` loop of
`parseVerseRange`: trim the token, try the range regex first
(`from < 1 || to < from` fails; otherwise push every verse from `from` to
`to`), else the single-verse regex `^\d+$` (`verse < 1` fails). `none` models
the early `return null`. -/
def parseToken (part : List Char) : Option (List Nat) :=
  let t := trimChars part
  match isRangeToken t with
  | some (a, b) =>
    let vFrom := parseIntDigits a
    let vTo := parseIntDigits b
    if vFrom < 1 ∨ vTo < vFrom then none
    else some (List.range' vFrom (vTo - vFrom + 1))
  | none =>
    if !t.isEmpty && allDigitsB t then
      let v := parseIntDigits t
      if v < 1 then none else some [v]
    else none

/-- The whole token loop of `parseVerseRange`: concatenates the verses pushed
by each token, failing (early `return null`) as soon as one token fails. -/
def collectParts : List (List Char) → Option (List Nat)
  | [] => some []
  | p :: ps =>
    match parseToken p, collectParts ps with
    | some vs, some rest => some (vs ++ rest)
    | _, _ => none

/-- `Array.from(new Set(allVerses)).sort((a, b) => a - b)`: the ascending
list of the distinct collected verses. -/
def sortedDedup (l : List Nat) : List Nat := List.insertionSort (· ≤ ·) l.dedup

/-- `parseVerseRange` of `app/[book]/[chapter]/[verses]/page.tsx`: split the
expression on commas, parse every token, fail on an empty collection, and
return the deduplicated ascending verse list. -/
def parseVerseRange (s : String) : Option (List Nat) :=
  match collectParts (splitOnChar ',' s.data) with
  | none => none
  | some allVerses =>
    if allVerses.isEmpty then none else some (sortedDedup allVerses)

/-- The canonical string form of a parsed verse selection: the verse numbers
joined with commas (as a JavaScript `verses.join(',')` would produce). -/
def joinVerses (vs : List Nat) : String := ⟨joinWithChar ',' (vs.map natToChars)⟩

/-! ## Book abbreviation table
(`BOOK_ABBREVIATIONS`, `ABBREVIATION_TO_BOOK` and `normalizeBookName` in
`apps/web/lib/api/book-abbreviations.ts`) -/

/-- The `BOOK_ABBREVIATIONS` table: canonical (English, lower-case) book name
paired with its list of registered abbreviations, in source order. -/
def BOOK_ABBREVIATIONS : List (String × List String) := [
  ("genesis", ["gn", "gen", "ge", "gênesis"]),
  ("exodus", ["ex", "exo", "êxodo"]),
  ("leviticus", ["lv", "lev", "le", "levítico"]),
  ("numbers", ["nm", "num", "nu", "números"]),
  ("deuteronomy", ["dt", "deu", "de", "deuteronômio"]),
  ("joshua", ["js", "jos", "jo", "josué"]),
  ("judges", ["jz", "jdg", "jg", "juízes"]),
  ("ruth", ["rt", "rut", "ru", "rute"]),
  ("1samuel", ["1sm", "1sa", "1s", "1samuel"]),
  ("2samuel", ["2sm", "2sa", "2s", "2samuel"]),
  ("1kings", ["1rs", "1ki", "1k", "1reis"]),
  ("2kings", ["2rs", "2ki", "2k", "2reis"]),
  ("1chronicles", ["1cr", "1ch", "1c", "1crônicas"]),
  ("2chronicles", ["2cr", "2ch", "2c", "2crônicas"]),
  ("ezra", ["ed", "ezr", "ez", "esdras"]),
  ("nehemiah", ["ne", "neh", "neemias"]),
  ("esther", ["et", "est", "es", "ester"]),
  ("job", ["jó", "job", "jb"]),
  ("psalms", ["sl", "psa", "ps", "salmos"]),
  ("proverbs", ["pv", "pro", "pr", "provérbios"]),
  ("ecclesiastes", ["ec", "ecc", "eclesiastes"]),
  ("song", ["ct", "sng", "ss", "cantares", "cânticos"]),
  ("isaiah", ["is", "isa", "isaías"]),
  ("jeremiah", ["jr", "jer", "je", "jeremias"]),
  ("lamentations", ["lm", "lam", "la", "lamentações"]),
  ("ezekiel", ["ez", "eze", "ezequiel"]),
  ("daniel", ["dn", "dan", "da", "daniel"]),
  ("hosea", ["os", "hos", "ho", "oséias"]),
  ("joel", ["jl", "joe", "joel"]),
  ("amos", ["am", "amo", "amós"]),
  ("obadiah", ["ob", "oba", "obadias"]),
  ("jonah", ["jn", "jon", "jonas"]),
  ("micah", ["mq", "mic", "mi", "miquéias"]),
  ("nahum", ["na", "nah", "naum"]),
  ("habakkuk", ["hc", "hab", "ha", "habacuque"]),
  ("zephaniah", ["sf", "zep", "ze", "sofonias"]),
  ("haggai", ["ag", "hag", "hg", "ageu"]),
  ("zechariah", ["zc", "zec", "zacarias"]),
  ("malachi", ["ml", "mal", "ma", "malaquias"]),
  ("matthew", ["mt", "mat", "ma", "mateus"]),
  ("mark", ["mc", "mrk", "mk", "marcos"]),
  ("luke", ["lc", "luk", "lu", "lucas"]),
  ("john", ["jo", "joh", "jn", "joão"]),
  ("acts", ["at", "act", "ac", "atos"]),
  ("romans", ["rm", "rom", "ro", "romanos"]),
  ("1corinthians", ["1co", "1cor", "1c", "1coríntios"]),
  ("2corinthians", ["2co", "2cor", "2c", "2coríntios"]),
  ("galatians", ["gl", "gal", "ga", "gálatas"]),
  ("ephesians", ["ef", "eph", "ep", "efésios"]),
  ("philippians", ["fp", "phi", "ph", "filipenses"]),
  ("colossians", ["cl", "col", "co", "colossenses"]),
  ("1thessalonians", ["1ts", "1th", "1t", "1tessalonicenses"]),
  ("2thessalonians", ["2ts", "2th", "2t", "2tessalonicenses"]),
  ("1timothy", ["1tm", "1ti", "1timóteo"]),
  ("2timothy", ["2tm", "2ti", "2timóteo"]),
  ("titus", ["tt", "tit", "ti", "tito"]),
  ("philemon", ["fm", "phm", "pm", "filemom"]),
  ("hebrews", ["hb", "heb", "he", "hebreus"]),
  ("james", ["tg", "jam", "ja", "tiago"]),
  ("1peter", ["1pe", "1pt", "1p", "1pedro"]),
  ("2peter", ["2pe", "2pt", "2p", "2pedro"]),
  ("1john", ["1jo", "1jn", "1j", "1joão"]),
  ("2john", ["2jo", "2jn", "2j", "2joão"]),
  ("3john", ["3jo", "3jn", "3j", "3joão"]),
  ("jude", ["jd", "jud", "ju", "judas"]),
  ("revelation", ["ap", "rev", "re", "apocalipse"]),
  ("tobit", ["tb", "tob", "to", "tobias"]),
  ("judith", ["jt", "jdt", "jd", "judite"]),
  ("wisdom", ["sb", "wis", "wi", "sabedoria"]),
  ("sirach", ["sr", "sir", "si", "eclesiástico"]),
  ("baruch", ["br", "bar", "ba", "baruque"]),
  ("1maccabees", ["1mc", "1ma", "1m", "1macabeus"]),
  ("2maccabees", ["2mc", "2ma", "2m", "2macabeus"])]

/-- The registrations performed by the `Object.entries(...).forEach` loop
that builds `ABBREVIATION_TO_BOOK`, in execution order: for each table entry,
first the book name mapped to itself, then every abbreviation mapped to the
book name (all keys and values lower-cased). -/
def registrations : List (String × String) :=
  BOOK_ABBREVIATIONS.flatMap fun e =>
    (jsLower e.1, jsLower e.1) :: e.2.map fun a => (jsLower a, jsLower e.1)

/-- `ABBREVIATION_TO_BOOK[k]`: assignment into a plain object means that the
last registration of a key wins, so look the key up in the reversed
registration list. -/
def lookupAbbrev (k : String) : Option String :=
  (registrations.reverse.find? fun p => p.1 == k).map (·.2)

/-- `normalizeBookName` of `book-abbreviations.ts`: lower-case and trim the
input, then look it up in `ABBREVIATION_TO_BOOK`, falling back to the
lower-cased input itself. -/
def normalizeBookName (input : String) : String :=
  let normalized := jsTrim (jsLower input)
  (lookupAbbrev normalized).getD normalized

/-! ## Data model of `@bible/translations` as consumed by
`apps/web/lib/api/bible-utils.ts`: a Scripture is an ordered list of books,
each an ordered list of chapters, each an ordered list of verse strings. -/

structure Book where
  code : String
  name : String
  chapters : List (List String)
deriving DecidableEq

abbrev Scripture := List Book

/-- The two error classes of `bible-utils.ts`: `NotFoundError` (HTTP 404)
and `ValidationError` (HTTP 400).  A thrown error is modelled as an
`Except.error` carrying one of these. -/
inductive BibleErr where
  | notFound (resource : String)
  | validation (msg : String)
deriving DecidableEq

deriving instance DecidableEq for Except

/-! ## `findBook` (`bible-utils.ts` lines 54–111)

The five resolution attempts of `findBook`, in source order.  The scripture
registry (`scriptureMap`, whose data file is not under `src/`) is passed as
an explicit list of entries `(code, English name, Portuguese name)`. -/

abbrev ScriptureMap := List (String × String × String)

/-- First attempt: exact (case-insensitive) match on the book code. -/
def findByCode (t : Scripture) (inputLower : String) : Option Book :=
  t.find? fun b => jsLower b.code == inputLower

/-- Second attempt: exact (case-insensitive) match on the book name. -/
def findByName (t : Scripture) (inputLower : String) : Option Book :=
  t.find? fun b => jsLower b.name == inputLower

/-- Third attempt: match the alias-normalized input against book names. -/
def findByNormalizedName (t : Scripture) (inputLower : String) : Option Book :=
  let normalizedInput := normalizeBookName inputLower
  t.find? fun b => jsLower b.name == normalizedInput

/-- Fourth attempt: find a scripture-registry entry whose code, English name
or Portuguese name matches the input, then look its code up in the
translation. -/
def findByScriptureMapEntry (sm : ScriptureMap) (t : Scripture)
    (inputLower : String) : Option Book :=
  match sm.find? fun e =>
      jsLower e.1 == inputLower || jsLower e.2.1 == inputLower ||
        jsLower e.2.2 == inputLower with
  | some e => t.find? fun b => jsLower b.code == jsLower e.1
  | none => none

/-- Fifth attempt: substring match in either direction against book names. -/
def findBySubstring (t : Scripture) (inputLower : String) : Option Book :=
  t.find? fun b =>
    let bookNameLower := jsLower b.name
    jsIncludes bookNameLower inputLower || jsIncludes inputLower bookNameLower

/-- `findBook` of `bible-utils.ts`: lower-case and trim the user token, then
try the five attempts in order, the first hit winning; `none` models the
thrown `NotFoundError`. -/
def findBook (sm : ScriptureMap) (t : Scripture) (bookInput : String) :
    Option Book :=
  let inputLower := jsTrim (jsLower bookInput)
  ((((findByCode t inputLower).or
      (findByName t inputLower)).or
      (findByNormalizedName t inputLower)).or
      (findByScriptureMapEntry sm t inputLower)).or
      (findBySubstring t inputLower)

/-! ## `findChapter` and `findVerse` (`bible-utils.ts` lines 114–129) -/

/-- `findChapter`: out-of-range chapter numbers throw `NotFoundError`,
otherwise the chapter at 0-based index `chapterNum - 1` is returned. -/
def findChapter (book : Book) (chapterNum : Int) :
    Except BibleErr (List String) :=
  let bn := book.name
  if chapterNum < 1 ∨ chapterNum > (book.chapters.length : Int) then
    .error (.notFound s!"Chapter {chapterNum} in book {bn}")
  else
    .ok (book.chapters.getD (chapterNum - 1).toNat [])

/-- `findVerse`: out-of-range verse numbers throw `NotFoundError`, otherwise
the verse at 0-based index `verseNum - 1` is returned. -/
def findVerse (chapter : List String) (verseNum : Int) :
    Except BibleErr String :=
  if verseNum < 1 ∨ verseNum > (chapter.length : Int) then
    .error (.notFound s!"Verse {verseNum} in chapter")
  else
    .ok (chapter.getD (verseNum - 1).toNat "")

/-! ## Response formatting (`bible-utils.ts` lines 164–339) -/

structure TranslationInfo where
  key : String
  name : String
  language : String
deriving DecidableEq

/-- `formatTranslationInfo`. -/
def formatTranslationInfo (translationKey : String) : TranslationInfo :=
  ⟨translationKey,
   if translationKey == "nva" then "Nova Versão de Acesso Livre (NVA)"
   else translationKey,
   "pt-BR"⟩

structure BookData where
  code : String
  name : String
  summary : String
  chapters : Nat
deriving DecidableEq

/-- `formatBookData`.  The contents of `book-summaries.ts` are not under
`src/`, so the summary table is passed as an explicit parameter. -/
def formatBookData (summaries : String → Option String) (book : Book) :
    BookData :=
  ⟨book.code, book.name, (summaries book.code).getD "No summary available.",
   book.chapters.length⟩

structure SimpleVerse where
  verse : Nat
  text : String
deriving DecidableEq

/-- `formatSimpleVerse`. -/
def formatSimpleVerse (verseText : String) (verseNum : Nat) : SimpleVerse :=
  ⟨verseNum, verseText⟩

/-! ## Chapter pagination (`getChapterPagination`, lines 239–259) -/

structure ChapterRef where
  number : Int
  reference : String
  verses : Nat
deriving DecidableEq

structure ChapterPagination where
  prevChapter : Option ChapterRef
  nextChapter : Option ChapterRef
deriving DecidableEq

/-- `getChapterPagination`: the basic single-book form.  `prevChapter` is
`null` exactly at chapter 1, `nextChapter` exactly at the last chapter;
interior neighbours carry the neighbour's number, reference string and verse
count. -/
def getChapterPagination (book : Book) (chapterNum : Int) :
    ChapterPagination :=
  let isFirstChapter := chapterNum = 1
  let isLastChapter := chapterNum = (book.chapters.length : Int)
  let bn := book.name
  { prevChapter :=
      if isFirstChapter then none
      else
        some ⟨chapterNum - 1, s!"{bn} {chapterNum - 1}",
          (book.chapters.getD (chapterNum - 2).toNat []).length⟩,
    nextChapter :=
      if isLastChapter then none
      else
        some ⟨chapterNum + 1, s!"{bn} {chapterNum + 1}",
          (book.chapters.getD chapterNum.toNat []).length⟩ }

/-! ## Verse pagination (`getVersePagination`, lines 195–236) -/

structure VerseRef where
  number : Int
  reference : String
deriving DecidableEq

structure PrevChapterRef where
  number : Int
  reference : String
  lastVerse : Nat
deriving DecidableEq

structure NextChapterRef where
  number : Int
  reference : String
  firstVerse : Nat
deriving DecidableEq

structure VersePagination where
  prevVerse : Option VerseRef
  nextVerse : Option VerseRef
  prevChapter : Option PrevChapterRef
  nextChapter : Option NextChapterRef
deriving DecidableEq

/-- `getVersePagination`. -/
def getVersePagination (book : Book) (chapterNum verseNum : Int) :
    VersePagination :=
  let currentChapter := book.chapters.getD (chapterNum - 1).toNat []
  let isFirstVerse := verseNum = 1
  let isLastVerse := verseNum = (currentChapter.length : Int)
  let isFirstChapter := chapterNum = 1
  let isLastChapter := chapterNum = (book.chapters.length : Int)
  let bn := book.name
  { prevVerse :=
      if isFirstVerse then none
      else some ⟨verseNum - 1, s!"{bn} {chapterNum}:{verseNum - 1}"⟩,
    nextVerse :=
      if isLastVerse then none
      else some ⟨verseNum + 1, s!"{bn} {chapterNum}:{verseNum + 1}"⟩,
    prevChapter :=
      if isFirstVerse ∧ ¬isFirstChapter then
        some ⟨chapterNum - 1, s!"{bn} {chapterNum - 1}",
          (book.chapters.getD (chapterNum - 2).toNat []).length⟩
      else none,
    nextChapter :=
      if isLastVerse ∧ ¬isLastChapter then
        some ⟨chapterNum + 1, s!"{bn} {chapterNum + 1}", 1⟩
      else none }

/-! ## Chapter and verse responses
(`formatChapterResponse` / `formatVerseResponse`, lines 262–308) -/

structure ChapterInfo where
  number : Int
  name : String
  totalVerses : Nat
deriving DecidableEq

structure ChapterResponse where
  translation : TranslationInfo
  book : BookData
  chapter : ChapterInfo
  verses : List SimpleVerse
  pagination : ChapterPagination
deriving DecidableEq

/-- `formatChapterResponse`.  The optional `versesFilter` argument is absent
at every call site verified here; with no filter the source numbers every
verse of the chapter by position. -/
def formatChapterResponse (summaries : String → Option String)
    (chapter : List String) (chapterNum : Int) (book : Book)
    (translationKey : String) : ChapterResponse :=
  let bn := book.name
  { translation := formatTranslationInfo translationKey,
    book := formatBookData summaries book,
    chapter := ⟨chapterNum, s!"{bn} {chapterNum}", chapter.length⟩,
    verses := chapter.enum.map fun p => formatSimpleVerse p.2 (p.1 + 1),
    pagination := getChapterPagination book chapterNum }

structure ChapterHeader where
  number : Int
  name : String
deriving DecidableEq

structure VerseInfo where
  number : Int
  text : String
  reference : String
deriving DecidableEq

structure VerseResponse where
  translation : TranslationInfo
  book : BookData
  chapter : ChapterHeader
  verse : VerseInfo
  pagination : VersePagination
deriving DecidableEq

/-- `formatVerseResponse`. -/
def formatVerseResponse (summaries : String → Option String)
    (verseText : String) (verseNum chapterNum : Int) (book : Book)
    (translationKey : String) : VerseResponse :=
  let bn := book.name
  { translation := formatTranslationInfo translationKey,
    book := formatBookData summaries book,
    chapter := ⟨chapterNum, s!"{bn} {chapterNum}"⟩,
    verse := ⟨verseNum, verseText, s!"{bn} {chapterNum}:{verseNum}"⟩,
    pagination := getVersePagination book chapterNum verseNum }

/-! ## `searchVerses` (`bible-utils.ts` lines 342–379) -/

/-- The early-return discipline of the search loop: emit elements one at a
time and stop as soon as the number already emitted reaches `limit`
(the `results.length >= limit` check runs after each push). -/
def takeUntilCount {α : Type} (limit : Nat) : List α → Nat → List α
  | [], _ => []
  | x :: xs, n =>
    x :: (if n + 1 ≥ limit then [] else takeUntilCount limit xs (n + 1))

/-- The full match list of `searchVerses` in scan order (books in
translation order, then chapters in order, then verses in order), with the
case-insensitive substring containment test of the source. -/
def scanMatches (summaries : String → Option String) (t : Scripture)
    (query translationKey : String) : List VerseResponse :=
  let searchTerm := jsLower query
  t.flatMap fun book =>
    (List.range book.chapters.length).flatMap fun chapterIndex =>
      let chapter := book.chapters.getD chapterIndex []
      (List.range chapter.length).filterMap fun verseIndex =>
        let verseText := chapter.getD verseIndex ""
        if jsIncludes (jsLower verseText) searchTerm then
          some (formatVerseResponse summaries verseText
            ((verseIndex : Int) + 1) ((chapterIndex : Int) + 1) book
            translationKey)
        else none

/-- `searchVerses`: the triple scan loop with its early return once `limit`
results are collected. -/
def searchVerses (summaries : String → Option String) (t : Scripture)
    (query translationKey : String) (limit : Nat) : List VerseResponse :=
  takeUntilCount limit (scanMatches summaries t query translationKey) 0

/-! ## `getMultipleChapters` (`bible-utils.ts` lines 382–408) -/

/-- `getMultipleChapters`: `from > to` throws `ValidationError` first; then
`from < 1 || to > book.chapters.length` throws `ValidationError`; otherwise
the chapters `from … to` are formatted in order. -/
def getMultipleChapters (summaries : String → Option String) (book : Book)
    (fromChapter toChapter : Int) (translationKey : String) :
    Except BibleErr (List ChapterResponse) :=
  let bn := book.name
  if fromChapter > toChapter then
    .error (.validation "from chapter cannot be greater than to chapter")
  else if fromChapter < 1 ∨ toChapter > (book.chapters.length : Int) then
    .error
      (.validation s!"Chapter range {fromChapter}-{toChapter} is invalid for book {bn}")
  else
    .ok ((List.range' (fromChapter - 1).toNat
        (toChapter - fromChapter + 1).toNat).map fun i =>
      formatChapterResponse summaries (book.chapters.getD i [])
        ((i : Int) + 1) book translationKey)

/-! ## `getTranslation` and the translation cache
(`bible-utils.ts` lines 33–51) -/

abbrev TranslationCache := List (String × Scripture)

structure GetTranslationResult where
  result : Except BibleErr Scripture
  cache : TranslationCache
  invokedLoad : Bool
deriving DecidableEq

/-- `getTranslation`: the module-level `translationCache` map is passed and
returned explicitly.  `loadTranslation` (whose i/o cannot occur here) is a
parameter; `none` covers both a `null` resolution and a rejected promise,
which the source's `catch` converts alike into `NotFoundError`.
`invokedLoad` records whether `loadTranslation` was called. -/
def getTranslation (load : String → Option Scripture)
    (cache : TranslationCache) (key : String) : GetTranslationResult :=
  match cache.find? fun p => p.1 == key with
  | some p => ⟨.ok p.2, cache, false⟩
  | none =>
    match load key with
    | some translation => ⟨.ok translation, (key, translation) :: cache, true⟩
    | none => ⟨.error (.notFound s!"Translation {key}"), cache, true⟩

/-! ## Extended chapter pagination of the reading UI -/

structure ExtChapterRef where
  number : Int
  reference : String
  verses : Nat
  book : Option String
  bookName : Option String
deriving DecidableEq

structure ExtChapterPagination where
  prevChapter : Option ExtChapterRef
  nextChapter : Option ExtChapterRef
deriving DecidableEq

/-- Modelled from the spec: the extended chapter pagination consumed by the
reading UI.  Its producer (the deployed API route) is not under `src/` — the
checked-in `route.ts` is a stub, and only the consumer
(`ScriptureReader.tsx` lines 60–75) declares the record shape, with optional
`book`/`bookName` fields.  Following spec §4.3, "Extended pagination (used
by the reading UI) additionally crosses into the previous/next book in
canonical registry order when at a book's first/last chapter, reporting the
target book's code and localized name."  `registry` is the canonical-order
book list, `localName` localizes a book code (`getBookNamePt` is likewise
not under `src/`), and `bookIdx` is the current book's registry position. -/
def extendedChapterPagination (registry : List Book)
    (localName : String → String) (bookIdx : Nat) (chapterNum : Int) :
    ExtChapterPagination :=
  let b := registry.getD bookIdx ⟨"", "", []⟩
  let n := b.chapters.length
  let bn := b.name
  { prevChapter :=
      if chapterNum = 1 then
        if bookIdx = 0 then none
        else
          let pb := registry.getD (bookIdx - 1) ⟨"", "", []⟩
          let pn := localName pb.code
          let pc := pb.chapters.length
          some ⟨(pc : Int), s!"{pn} {pc}",
            (pb.chapters.getD (pc - 1) []).length, some pb.code, some pn⟩
      else
        some ⟨chapterNum - 1, s!"{bn} {chapterNum - 1}",
          (b.chapters.getD (chapterNum - 2).toNat []).length, none, none⟩,
    nextChapter :=
      if chapterNum = (n : Int) then
        if bookIdx + 1 < registry.length then
          let nb := registry.getD (bookIdx + 1) ⟨"", "", []⟩
          let nn := localName nb.code
          some ⟨1, s!"{nn} 1", (nb.chapters.getD 0 []).length,
            some nb.code, some nn⟩
        else none
      else
        some ⟨chapterNum + 1, s!"{bn} {chapterNum + 1}",
          (b.chapters.getD chapterNum.toNat []).length, none, none⟩ }

/-! ## Specification-side predicates and concrete fixtures -/

/-- Specification-side grammar of one verse-range token: after trimming, the
token is either a non-empty digit run with value at least 1, or two
non-empty digit runs around a single hyphen with `1 ≤ start ≤ end`. -/
def goodToken (part : List Char) : Prop :=
  (trimChars part ≠ [] ∧ allDigitsB (trimChars part) = true ∧
    1 ≤ parseIntDigits (trimChars part)) ∨
  (∃ a b, trimChars part = a ++ '-' :: b ∧ a ≠ [] ∧ b ≠ [] ∧
    allDigitsB a = true ∧ allDigitsB b = true ∧
    1 ≤ parseIntDigits a ∧ parseIntDigits a ≤ parseIntDigits b)

/-- Small concrete fixture book (3 chapters). -/
def wBook : Book := ⟨"gn", "Genesis", [["A", "B", "C"], ["D", "E"], ["F"]]⟩

/-- Second fixture book (2 chapters). -/
def wBook2 : Book := ⟨"ex", "Exodus", [["G"], ["H", "I"]]⟩

/-- Fixture translation. -/
def wScripture : Scripture := [wBook, wBook2]

/-- Fixture summary table (empty). -/
def wSummaries : String → Option String := fun _ => none

/-- Fixture loader: only the key `nva` resolves. -/
def wLoad : String → Option Scripture :=
  fun k => if k == "nva" then some wScripture else none

/-- Fixture scripture registry. -/
def wMap : ScriptureMap :=
  [("gn", "Genesis", "Gênesis"), ("ex", "Exodus", "Êxodo")]

/-- Fixture localization of book codes. -/
def wLocal : String → String :=
  fun c => if c == "gn" then "Gênesis" else if c == "ex" then "Êxodo" else c

example : normalizeBookName "GN" = "genesis" := by decide
example : normalizeBookName "Gênesis" = "genesis" := by decide
example : normalizeBookName "jo" = "john" := by decide
example : normalizeBookName "unknown-token" = "unknown-token" := by decide

example : parseVerseRange "5" = some [5] := by decide
example : parseVerseRange "5-7" = some [5, 6, 7] := by decide
example : parseVerseRange "5,7,9-11" = some [5, 7, 9, 10, 11] := by decide
example : parseVerseRange "7-5" = none := by decide
example : parseVerseRange "0-3" = none := by decide
example : parseVerseRange "" = none := by decide
example : parseVerseRange "5-7,10,12-14" = some [5, 6, 7, 10, 12, 13, 14] := by decide
example : parseVerseRange " 5 , 7 " = some [5, 7] := by decide
example : parseVerseRange "5-7-9" = none := by decide
example : joinVerses [5, 7, 9, 10, 11] = "5,7,9,10,11" := by decide
example : parseVerseRange (joinVerses [5, 7, 9, 10, 11]) = some [5, 7, 9, 10, 11] := by decide

/-! ## Claim C6: chapter and verse lookup bounds -/

/-- C6: for every book with `N` chapters and every integer `n`,
`findChapter(book, n)` throws `NotFoundError` iff `n < 1` or `n > N`, and
otherwise returns the chapter stored at index `n - 1`; likewise
`findVerse(chapter, n)` over a chapter of length `L`. -/
theorem findChapter_findVerse_bounds (book : Book) (chapter : List String)
    (n m : Int) :
    ((∃ r, findChapter book n = .error (.notFound r)) ↔
      n < 1 ∨ (book.chapters.length : Int) < n)
    ∧ (1 ≤ n → n ≤ (book.chapters.length : Int) →
        ∃ c, book.chapters[(n - 1).toNat]? = some c ∧
          findChapter book n = .ok c)
    ∧ ((∃ r, findVerse chapter m = .error (.notFound r)) ↔
      m < 1 ∨ (chapter.length : Int) < m)
    ∧ (1 ≤ m → m ≤ (chapter.length : Int) →
        ∃ v, chapter[(m - 1).toNat]? = some v ∧ findVerse chapter m = .ok v) := by
  refine ⟨⟨?_, ?_⟩, ?_, ⟨?_, ?_⟩, ?_⟩
  · rintro ⟨r, hr⟩
    simp only [findChapter] at hr
    split at hr
    · assumption
    · exact absurd hr (by simp)
  · intro h
    exact ⟨_, by simp only [findChapter]; rw [if_pos h]⟩
  · intro h1 h2
    have hlt : (n - 1).toNat < book.chapters.length := by omega
    refine ⟨book.chapters[(n - 1).toNat], List.getElem?_eq_getElem hlt, ?_⟩
    simp only [findChapter]
    rw [if_neg (by omega)]
    congr 1
    rw [List.getD_eq_getElem?_getD, List.getElem?_eq_getElem hlt]
    rfl
  · rintro ⟨r, hr⟩
    simp only [findVerse] at hr
    split at hr
    · assumption
    · exact absurd hr (by simp)
  · intro h
    exact ⟨_, by simp only [findVerse]; rw [if_pos h]⟩
  · intro h1 h2
    have hlt : (m - 1).toNat < chapter.length := by omega
    refine ⟨chapter[(m - 1).toNat], List.getElem?_eq_getElem hlt, ?_⟩
    simp only [findVerse]
    rw [if_neg (by omega)]
    congr 1
    rw [List.getD_eq_getElem?_getD, List.getElem?_eq_getElem hlt]
    rfl

/-- C6 witness: on the fixture book, chapter 0 and chapter 4 fail with
`NotFoundError`, chapter 2 is returned, and verse 2 of a 3-verse chapter is
returned. -/
theorem findChapter_findVerse_bounds_witness :
    (∃ r, findChapter wBook 0 = .error (.notFound r)) ∧
    (∃ r, findChapter wBook 4 = .error (.notFound r)) ∧
    (∃ c, wBook.chapters[((2 : Int) - 1).toNat]? = some c ∧
      findChapter wBook 2 = .ok c) ∧
    (∃ v, ["A", "B", "C"][((2 : Int) - 1).toNat]? = some v ∧
      findVerse ["A", "B", "C"] 2 = .ok v) :=
  ⟨(findChapter_findVerse_bounds wBook [] 0 0).1.mpr (by decide),
   (findChapter_findVerse_bounds wBook [] 4 0).1.mpr (by decide),
   (findChapter_findVerse_bounds wBook [] 2 0).2.1 (by decide) (by decide),
   (findChapter_findVerse_bounds wBook ["A", "B", "C"] 0 2).2.2.2
     (by decide) (by decide)⟩

/-! ## Claim C5: basic chapter pagination -/

/-- C5: for a book with `N ≥ 1` chapters and `1 ≤ k ≤ N`, the basic
`getChapterPagination` has a null `prevChapter` iff `k = 1`, a null
`nextChapter` iff `k = N`, and for interior `k` both neighbours are present
with numbers `k - 1` and `k + 1`. -/
theorem getChapterPagination_edges (book : Book) (k : Int)
    (h1 : 1 ≤ k) (h2 : k ≤ (book.chapters.length : Int)) :
    ((getChapterPagination book k).prevChapter = none ↔ k = 1)
    ∧ ((getChapterPagination book k).nextChapter = none ↔
        k = (book.chapters.length : Int))
    ∧ (1 < k → k < (book.chapters.length : Int) →
        ((getChapterPagination book k).prevChapter.map fun r => r.number) =
            some (k - 1) ∧
          ((getChapterPagination book k).nextChapter.map fun r => r.number) =
            some (k + 1)) := by
  refine ⟨?_, ?_, ?_⟩
  · by_cases h : k = 1 <;> simp [getChapterPagination, h]
  · by_cases h : k = (book.chapters.length : Int) <;>
      simp [getChapterPagination, h]
  · intro hk1 hk2
    have h1' : ¬(k = 1) := by omega
    have h2' : ¬(k = (book.chapters.length : Int)) := by omega
    constructor <;> simp [getChapterPagination, h1', h2']

/-- C5 witness: on the 3-chapter fixture book at chapter 2, both neighbours
exist and carry numbers 1 and 3. -/
theorem getChapterPagination_edges_witness :
    (1 : Int) ≤ 2 ∧ (2 : Int) ≤ (wBook.chapters.length : Int) ∧
    ((getChapterPagination wBook 2).prevChapter.map fun r => r.number) =
        some ((2 : Int) - 1) ∧
      ((getChapterPagination wBook 2).nextChapter.map fun r => r.number) =
        some ((2 : Int) + 1) :=
  ⟨by decide, by decide,
   (getChapterPagination_edges wBook 2 (by decide) (by decide)).2.2
     (by decide) (by decide)⟩

/-! ## Claim C7: multi-chapter fetch -/

/-- C7: `getMultipleChapters(book, from, to)` throws `ValidationError`
whenever `from > to` (regardless of bounds), throws `ValidationError`
whenever `from < 1` or `to > N`, and otherwise returns the formatted
chapters `from … to` in order. -/
theorem getMultipleChapters_spec (summaries : String → Option String)
    (book : Book) (f t : Int) (key : String) :
    (t < f → getMultipleChapters summaries book f t key =
      .error (.validation "from chapter cannot be greater than to chapter"))
    ∧ (f ≤ t → (f < 1 ∨ (book.chapters.length : Int) < t) →
        ∃ msg, getMultipleChapters summaries book f t key =
          .error (.validation msg))
    ∧ (1 ≤ f → f ≤ t → t ≤ (book.chapters.length : Int) →
        ∃ l, getMultipleChapters summaries book f t key = .ok l ∧
          (l.length : Int) = t - f + 1 ∧
          ∀ j : Nat, (j : Int) < t - f + 1 →
            l[j]? = some (formatChapterResponse summaries
              (book.chapters.getD ((f - 1).toNat + j) []) (f + j) book key)) := by
  refine ⟨?_, ?_, ?_⟩
  · intro h
    simp only [getMultipleChapters]
    rw [if_pos (by omega)]
  · intro h1 h2
    simp only [getMultipleChapters]
    rw [if_neg (by omega), if_pos h2]
    exact ⟨_, rfl⟩
  · intro h1 h2 h3
    simp only [getMultipleChapters]
    rw [if_neg (by omega), if_neg (by omega)]
    refine ⟨_, rfl, ?_, ?_⟩
    · simp only [List.length_map, List.length_range']
      omega
    · intro j hj
      have hjlt : j < (t - f + 1).toNat := by omega
      rw [List.getElem?_map, List.getElem?_range' _ _ hjlt]
      simp only [Option.map_some', one_mul]
      have hnum : (((f - 1).toNat + j : Nat) : Int) + 1 = f + j := by omega
      rw [hnum]

/-- C7 witness: on the 3-chapter fixture book, `from = 3 > to = 1` fails
with the `ValidationError`, and `from = 1, to = 2` returns two chapters. -/
theorem getMultipleChapters_spec_witness :
    ((1 : Int) < 3 ∧ getMultipleChapters wSummaries wBook 3 1 "nva" =
      .error (.validation "from chapter cannot be greater than to chapter")) ∧
    (∃ l, getMultipleChapters wSummaries wBook 1 2 "nva" = .ok l ∧
      (l.length : Int) = 2 - 1 + 1 ∧
      ∀ j : Nat, (j : Int) < 2 - 1 + 1 →
        l[j]? = some (formatChapterResponse wSummaries
          (wBook.chapters.getD (((1 : Int) - 1).toNat + j) []) (1 + j) wBook
          "nva")) :=
  ⟨⟨by decide, (getMultipleChapters_spec wSummaries wBook 3 1 "nva").1
      (by decide)⟩,
   (getMultipleChapters_spec wSummaries wBook 1 2 "nva").2.2
     (by decide) (by decide) (by decide)⟩

/-! ## Claim C8: verse search -/

theorem takeUntilCount_eq_take {α : Type} (limit : Nat) :
    ∀ (l : List α) (n : Nat), n < limit →
      takeUntilCount limit l n = l.take (limit - n) := by
  intro l
  induction l with
  | nil => intro n _; simp [takeUntilCount]
  | cons x xs ih =>
    intro n hn
    simp only [takeUntilCount]
    by_cases h : n + 1 ≥ limit
    · rw [if_pos h]
      have : limit - n = 1 := by omega
      rw [this]
      simp
    · rw [if_neg h, ih (n + 1) (by omega)]
      have : limit - n = (limit - (n + 1)) + 1 := by omega
      rw [this]
      simp

/-- C8: for every positive limit, `searchVerses` returns exactly the first
`limit` elements of the full match list taken in scan order — books in
translation order, then chapters, then verses, filtered by the
case-insensitive substring test — and in particular returns at most `limit`
results. -/
theorem searchVerses_spec (summaries : String → Option String)
    (t : Scripture) (query key : String) (limit : Nat) (h : 1 ≤ limit) :
    searchVerses summaries t query key limit =
      (scanMatches summaries t query key).take limit
    ∧ (searchVerses summaries t query key limit).length ≤ limit := by
  have he := takeUntilCount_eq_take limit (scanMatches summaries t query key)
    0 (by omega)
  constructor
  · simpa [searchVerses] using he
  · simp only [searchVerses, he, Nat.sub_zero, List.length_take]
    omega

/-- C8 witness: on the fixture translation, searching for the verse text
`f` with limit 1 returns the single scan match. -/
theorem searchVerses_spec_witness :
    1 ≤ 1 ∧ searchVerses wSummaries wScripture "f" "nva" 1 =
      (scanMatches wSummaries wScripture "f" "nva").take 1 :=
  ⟨by decide,
   (searchVerses_spec wSummaries wScripture "f" "nva" 1 (by decide)).1⟩

/-! ## Claim C10: translation cache -/

/-- C10: `getTranslation` fails only with `NotFoundError` and leaves the
cache unchanged on failure; after a successful call, the repeated call with
the same key answers from the cache — returning the same `Scripture` and
the same cache, without invoking `loadTranslation` — and the cache keeps at
most one entry per key. -/
theorem getTranslation_spec (load : String → Option Scripture)
    (cache : TranslationCache) (key : String) :
    (∀ e, (getTranslation load cache key).result = .error e →
      (∃ r, e = .notFound r) ∧ (getTranslation load cache key).cache = cache)
    ∧ (∀ tr, (getTranslation load cache key).result = .ok tr →
        getTranslation load ((getTranslation load cache key).cache) key =
          ⟨.ok tr, (getTranslation load cache key).cache, false⟩)
    ∧ ((∀ k, cache.countP (fun p => p.1 == k) ≤ 1) →
        ∀ k, ((getTranslation load cache key).cache.countP
          (fun p => p.1 == k)) ≤ 1) := by
  rcases hfind : cache.find? fun p => p.1 == key with _ | p
  · rcases hload : load key with _ | tr
    · refine ⟨?_, ?_, ?_⟩
      · intro e he
        simp only [getTranslation, hfind, hload] at he
        injection he with h
        subst h
        exact ⟨⟨_, rfl⟩, by simp only [getTranslation, hfind, hload]⟩
      · intro tr htr
        simp only [getTranslation, hfind, hload] at htr
        exact absurd htr (by simp)
      · intro hc k
        simp only [getTranslation, hfind, hload]
        exact hc k
    · refine ⟨?_, ?_, ?_⟩
      · intro e he
        simp only [getTranslation, hfind, hload] at he
        exact absurd he (by simp)
      · intro tr' htr
        simp only [getTranslation, hfind, hload] at htr
        injection htr with h
        subst h
        simp only [getTranslation, hfind, hload]
        rw [List.find?_cons_of_pos _ (by simp)]
      · intro hc k
        simp only [getTranslation, hfind, hload, List.countP_cons]
        by_cases hk : key == k
        · have h0 : cache.countP (fun p => p.1 == k) = 0 := by
            rw [List.countP_eq_zero]
            intro a ha
            have := List.find?_eq_none.mp hfind a ha
            simpa [beq_iff_eq.mp hk] using this
          simp [hk, h0]
        · simp only [hk, if_false]
          simpa using hc k
  · refine ⟨?_, ?_, ?_⟩
    · intro e he
      simp only [getTranslation, hfind] at he
      exact absurd he (by simp)
    · intro tr htr
      simp only [getTranslation, hfind] at htr
      injection htr with h
      subst h
      simp only [getTranslation, hfind]
    · intro hc k
      simp only [getTranslation, hfind]
      exact hc k

/-- C10 witness: with the fixture loader and an empty cache, loading `nva`
succeeds, and the immediately repeated call returns the same object and the
same cache without invoking the loader. -/
theorem getTranslation_spec_witness :
    (getTranslation wLoad [] "nva").result = .ok wScripture ∧
    getTranslation wLoad ((getTranslation wLoad [] "nva").cache) "nva" =
      ⟨.ok wScripture, (getTranslation wLoad [] "nva").cache, false⟩ :=
  ⟨by decide,
   (getTranslation_spec wLoad [] "nva").2.1 wScripture (by decide)⟩

/-! ## Claim C1: book resolution order -/

/-- C1: `findBook` is exactly the first-match cascade of its five
resolution attempts in source order; in particular, whenever some book's
code matches the lower-cased trimmed token, `findBook` succeeds and returns
a book whose code matches it; and when no attempt matches, `findBook` fails
(`NotFoundError`). -/
theorem findBook_spec (sm : ScriptureMap) (t : Scripture) (input : String) :
    findBook sm t input =
      [findByCode t (jsTrim (jsLower input)),
       findByName t (jsTrim (jsLower input)),
       findByNormalizedName t (jsTrim (jsLower input)),
       findByScriptureMapEntry sm t (jsTrim (jsLower input)),
       findBySubstring t (jsTrim (jsLower input))].foldl Option.or none
    ∧ ((∃ b ∈ t, jsLower b.code = jsTrim (jsLower input)) →
        ∃ b, findBook sm t input = some b ∧
          jsLower b.code = jsTrim (jsLower input))
    ∧ (findByCode t (jsTrim (jsLower input)) = none →
        findByName t (jsTrim (jsLower input)) = none →
        findByNormalizedName t (jsTrim (jsLower input)) = none →
        findByScriptureMapEntry sm t (jsTrim (jsLower input)) = none →
        findBySubstring t (jsTrim (jsLower input)) = none →
        findBook sm t input = none) := by
  refine ⟨rfl, ?_, ?_⟩
  · rintro ⟨b, hb, hcode⟩
    have hsome : (t.find? fun x =>
        jsLower x.code == jsTrim (jsLower input)).isSome :=
      List.find?_isSome.mpr ⟨b, hb, by simp [hcode]⟩
    obtain ⟨b', hb'⟩ := Option.isSome_iff_exists.mp hsome
    have h1 : findByCode t (jsTrim (jsLower input)) = some b' := hb'
    have hcode' : jsLower b'.code = jsTrim (jsLower input) := by
      have hpred := List.find?_some hb'
      simpa using hpred
    refine ⟨b', ?_, hcode'⟩
    simp only [findBook, findByCode] at h1 ⊢
    rw [h1]
    rfl
  · intro h1 h2 h3 h4 h5
    simp only [findBook]
    rw [h1, h2, h3, h4, h5]
    rfl

/-- C1 witness: in the fixture translation, the code token `GN` resolves by
its code, and a token matching nothing fails. -/
theorem findBook_spec_witness :
    (∃ b ∈ wScripture, jsLower b.code = jsTrim (jsLower "GN")) ∧
    (∃ b, findBook wMap wScripture "GN" = some b ∧
      jsLower b.code = jsTrim (jsLower "GN")) ∧
    findBook wMap wScripture "zzzz" = none :=
  ⟨by decide,
   (findBook_spec wMap wScripture "GN").2.1 (by decide),
   (findBook_spec wMap wScripture "zzzz").2.2 (by decide) (by decide)
     (by decide) (by decide) (by decide)⟩

/-! ## Claim C3: alias normalization -/

/-- C3 counterexample: `jo` is a registered abbreviation of `joshua`, yet it
normalizes to `john` (the later book that also registers `jo`), not to
`normalizeBookName "joshua" = "joshua"`. -/
theorem normalizeBookName_alias_cex :
    ("joshua", ["js", "jos", "jo", "josué"]) ∈ BOOK_ABBREVIATIONS ∧
    "jo" ∈ ["js", "jos", "jo", "josué"] ∧
    normalizeBookName "jo" = "john" ∧
    normalizeBookName "jo" ≠ normalizeBookName "joshua" := by decide

theorem lookupAbbrev_of_uniq (k v : String)
    (hmem : (k, v) ∈ registrations)
    (huniq : ∀ p ∈ registrations, p.1 = k → p.2 = v) :
    lookupAbbrev k = some v := by
  have hsome : (registrations.reverse.find? fun p => p.1 == k).isSome :=
    List.find?_isSome.mpr ⟨(k, v), List.mem_reverse.mpr hmem, by simp⟩
  obtain ⟨p, hp⟩ := Option.isSome_iff_exists.mp hsome
  have hpk : p.1 = k := by
    have hpred := List.find?_some hp
    simpa using hpred
  have hpmem : p ∈ registrations :=
    List.mem_reverse.mp (List.mem_of_find?_eq_some hp)
  have hpv : p.2 = v := huniq p hpmem hpk
  simp [lookupAbbrev, hp, hpv]

/-- C3 amended: a registered alias of a book normalizes to the same
canonical name as the book itself provided the alias is not also registered
(later) by another book — registration is last-wins, so a colliding alias
normalizes to the name recorded by its final registration instead. -/
theorem normalizeBookName_alias_amended (bn : String) (abbrevs : List String)
    (a : String) (hmem : (bn, abbrevs) ∈ BOOK_ABBREVIATIONS)
    (ha : a ∈ bn :: abbrevs)
    (huniq : ∀ p ∈ registrations, p.1 = jsLower a → p.2 = jsLower bn)
    (huniq2 : ∀ p ∈ registrations, p.1 = jsLower bn → p.2 = jsLower bn)
    (htrim : jsTrim (jsLower a) = jsLower a)
    (htrim2 : jsTrim (jsLower bn) = jsLower bn) :
    normalizeBookName a = normalizeBookName bn := by
  have hreg : (jsLower a, jsLower bn) ∈ registrations := by
    refine List.mem_flatMap.mpr ⟨(bn, abbrevs), hmem, ?_⟩
    rcases List.mem_cons.mp ha with h | h
    · subst h
      exact List.mem_cons_self _ _
    · exact List.mem_cons_of_mem _ (List.mem_map.mpr ⟨a, h, rfl⟩)
  have hreg2 : (jsLower bn, jsLower bn) ∈ registrations :=
    List.mem_flatMap.mpr ⟨(bn, abbrevs), hmem, List.mem_cons_self _ _⟩
  have h1 : lookupAbbrev (jsLower a) = some (jsLower bn) :=
    lookupAbbrev_of_uniq _ _ hreg huniq
  have h2 : lookupAbbrev (jsLower bn) = some (jsLower bn) :=
    lookupAbbrev_of_uniq _ _ hreg2 huniq2
  simp only [normalizeBookName, htrim, htrim2, h1, h2, Option.getD_some]

set_option maxRecDepth 8192 in
/-- C3 amended witness: `gn` is registered only by `genesis` and normalizes
to the same canonical name as `genesis` itself. -/
theorem normalizeBookName_alias_amended_witness :
    ("genesis", ["gn", "gen", "ge", "gênesis"]) ∈ BOOK_ABBREVIATIONS ∧
    "gn" ∈ "genesis" :: ["gn", "gen", "ge", "gênesis"] ∧
    normalizeBookName "gn" = normalizeBookName "genesis" :=
  ⟨by decide, by decide,
   normalizeBookName_alias_amended "genesis" ["gn", "gen", "ge", "gênesis"]
     "gn" (by decide) (by decide) (by decide) (by decide) (by decide)
     (by decide)⟩

/-! ## Claim C4: extended (cross-book) pagination of the reading UI -/

/-- C4 (spec-modelled): at a book's first chapter the extended pagination
used by the reading UI crosses into the previous book in canonical registry
order, and at the last chapter into the next book, in both cases reporting
the target book's code and its localized name instead of the `null` the
basic pagination would produce at interior book boundaries. -/
theorem extendedChapterPagination_crosses (registry : List Book)
    (localName : String → String) (i : Nat) (b : Book)
    (hb : registry[i]? = some b) :
    (∀ j pb, i = j + 1 → registry[j]? = some pb →
      ((extendedChapterPagination registry localName i 1).prevChapter.map
          fun r => (r.book, r.bookName, r.number)) =
        some (some pb.code, some (localName pb.code),
          (pb.chapters.length : Int)))
    ∧ (∀ nb, registry[i + 1]? = some nb →
      ((extendedChapterPagination registry localName i
            (b.chapters.length : Int)).nextChapter.map
          fun r => (r.book, r.bookName, r.number)) =
        some (some nb.code, some (localName nb.code), 1)) := by
  constructor
  · intro j pb hij hpb
    subst hij
    simp [extendedChapterPagination, hpb]
  · intro nb hnb
    obtain ⟨hlen, heq⟩ := List.getElem?_eq_some.mp hnb
    simp [extendedChapterPagination, hb, hnb, hlen, heq]

/-- C4 witness: in a two-book registry, book 1 at chapter 1 points back to
book 0 with its code and localized name. -/
theorem extendedChapterPagination_crosses_witness :
    [wBook, wBook2][1]? = some wBook2 ∧
    ((extendedChapterPagination [wBook, wBook2] wLocal 1 1).prevChapter.map
        fun r => (r.book, r.bookName, r.number)) =
      some (some wBook.code, some (wLocal wBook.code),
        (wBook.chapters.length : Int)) :=
  ⟨by decide,
   (extendedChapterPagination_crosses [wBook, wBook2] wLocal 1 wBook2
     (by decide)).1 0 wBook rfl (by decide)⟩

/-! ## Properties of the string primitives used by the verse-range parser -/

theorem splitOnChar_cons_of_ne (sep c : Char) (rest : List Char)
    (hc : ¬c = sep) (q : List Char) (qs : List (List Char))
    (h : splitOnChar sep rest = q :: qs) :
    splitOnChar sep (c :: rest) = (c :: q) :: qs := by
  simp [splitOnChar, hc, h]

theorem splitOnChar_ne_nil (sep : Char) (l : List Char) :
    splitOnChar sep l ≠ [] := by
  induction l with
  | nil => simp [splitOnChar]
  | cons c rest ih =>
    by_cases hc : c = sep
    · simp [splitOnChar, hc]
    · cases h : splitOnChar sep rest with
      | nil => exact absurd h ih
      | cons q qs => simp [splitOnChar_cons_of_ne sep c rest hc q qs h]

theorem not_mem_of_mem_splitOnChar (sep : Char) (l : List Char) :
    ∀ p ∈ splitOnChar sep l, sep ∉ p := by
  induction l with
  | nil =>
    intro p hp
    simp [splitOnChar] at hp
    simp [hp]
  | cons c rest ih =>
    intro p hp
    by_cases hc : c = sep
    · simp only [splitOnChar, if_pos hc] at hp
      rcases List.mem_cons.mp hp with rfl | hp'
      · simp
      · exact ih p hp'
    · cases h : splitOnChar sep rest with
      | nil => exact absurd h (splitOnChar_ne_nil sep rest)
      | cons q qs =>
        rw [splitOnChar_cons_of_ne sep c rest hc q qs h] at hp
        rcases List.mem_cons.mp hp with rfl | hp'
        · intro hm
          rcases List.mem_cons.mp hm with he | hm'
          · exact hc he.symm
          · exact ih q (h ▸ List.mem_cons_self q qs) hm'
        · exact ih p (h ▸ List.mem_cons_of_mem q hp')

theorem splitOnChar_of_not_mem (sep : Char) (l : List Char) (h : sep ∉ l) :
    splitOnChar sep l = [l] := by
  induction l with
  | nil => rfl
  | cons c rest ih =>
    have hc : ¬c = sep := by
      intro he
      exact h (by simp [he])
    have hrest : sep ∉ rest := fun hm => h (List.mem_cons_of_mem _ hm)
    rw [splitOnChar_cons_of_ne sep c rest hc rest [] (ih hrest)]

theorem splitOnChar_append_cons (sep : Char) (a r : List Char)
    (ha : sep ∉ a) :
    splitOnChar sep (a ++ sep :: r) = a :: splitOnChar sep r := by
  induction a with
  | nil => simp [splitOnChar]
  | cons c a' ih =>
    have hc : ¬c = sep := by
      intro he
      exact ha (by simp [he])
    have ha' : sep ∉ a' := fun hm => ha (List.mem_cons_of_mem _ hm)
    rw [List.cons_append,
      splitOnChar_cons_of_ne sep c (a' ++ sep :: r) hc a'
        (splitOnChar sep r) (ih ha')]

theorem splitOnChar_pair (sep : Char) (a b : List Char)
    (ha : sep ∉ a) (hb : sep ∉ b) :
    splitOnChar sep (a ++ sep :: b) = [a, b] := by
  rw [splitOnChar_append_cons sep a b ha, splitOnChar_of_not_mem sep b hb]

theorem joinWithChar_splitOnChar (sep : Char) (l : List Char) :
    joinWithChar sep (splitOnChar sep l) = l := by
  induction l with
  | nil => rfl
  | cons c rest ih =>
    by_cases hc : c = sep
    · cases h : splitOnChar sep rest with
      | nil => exact absurd h (splitOnChar_ne_nil sep rest)
      | cons q qs =>
        rw [h] at ih
        simp only [splitOnChar, if_pos hc, h, joinWithChar]
        rw [ih, hc]
        rfl
    · cases h : splitOnChar sep rest with
      | nil => exact absurd h (splitOnChar_ne_nil sep rest)
      | cons q qs =>
        rw [h] at ih
        rw [splitOnChar_cons_of_ne sep c rest hc q qs h]
        cases qs with
        | nil =>
          simp only [joinWithChar] at ih ⊢
          rw [ih]
        | cons q2 qs2 =>
          simp only [joinWithChar] at ih ⊢
          rw [List.cons_append, ih]

theorem splitOnChar_joinWithChar (sep : Char) :
    ∀ ps : List (List Char), ps ≠ [] → (∀ p ∈ ps, sep ∉ p) →
      splitOnChar sep (joinWithChar sep ps) = ps := by
  intro ps
  induction ps with
  | nil => intro h; exact absurd rfl h
  | cons p ps ih =>
    intro _ hmem
    cases ps with
    | nil =>
      exact splitOnChar_of_not_mem sep p (hmem p (List.mem_cons_self _ _))
    | cons q qs =>
      have hjoin : joinWithChar sep (p :: q :: qs) =
          p ++ sep :: joinWithChar sep (q :: qs) := rfl
      rw [hjoin,
        splitOnChar_append_cons sep p _ (hmem p (List.mem_cons_self _ _)),
        ih (by simp) fun r hr => hmem r (List.mem_cons_of_mem _ hr)]

theorem trimChars_of_no_space (l : List Char)
    (h : ∀ c ∈ l, isJsSpace c = false) : trimChars l = l := by
  have hd : ∀ m : List Char, (∀ c ∈ m, isJsSpace c = false) →
      m.dropWhile isJsSpace = m := by
    intro m hm
    cases m with
    | nil => rfl
    | cons c cs =>
      rw [List.dropWhile_cons, hm c (List.mem_cons_self _ _)]
      simp
  unfold trimChars
  rw [hd l h, hd l.reverse fun c hc => h c (List.mem_reverse.mp hc),
    List.reverse_reverse]

/-! ## Properties of the digit printer -/

theorem digitChar_lt10_isDigit : ∀ d, d < 10 → (digitChar d).isDigit = true := by
  decide

theorem digitChar_not_space : ∀ d, d < 10 → isJsSpace (digitChar d) = false := by
  decide

theorem digitChar_ne_comma : ∀ d, d < 10 → digitChar d ≠ ',' := by decide

theorem digitChar_ne_hyphen : ∀ d, d < 10 → digitChar d ≠ '-' := by decide

theorem digitChar_toNat : ∀ d, d < 10 → (digitChar d).toNat - 48 = d := by
  decide

theorem natToCharsAux_mem (fuel : Nat) :
    ∀ n c, c ∈ natToCharsAux fuel n → ∃ d, d < 10 ∧ c = digitChar d := by
  induction fuel with
  | zero =>
    intro n c hc
    simp [natToCharsAux] at hc
  | succ fuel ih =>
    intro n c hc
    by_cases hn : n = 0
    · simp [natToCharsAux, hn] at hc
    · rw [natToCharsAux, if_neg hn] at hc
      rcases List.mem_append.mp hc with h | h
      · exact ih (n / 10) c h
      · refine ⟨n % 10, Nat.mod_lt _ (by norm_num), ?_⟩
        simpa using h

theorem natToCharsAux_foldl (fuel : Nat) :
    ∀ n acc, n ≤ fuel →
      (natToCharsAux fuel n).foldl (fun a c => a * 10 + (c.toNat - 48)) acc =
        acc * 10 ^ (natToCharsAux fuel n).length + n := by
  induction fuel with
  | zero =>
    intro n acc hn
    have h0 : n = 0 := by omega
    subst h0
    simp [natToCharsAux]
  | succ fuel ih =>
    intro n acc hn
    by_cases h0 : n = 0
    · subst h0
      simp [natToCharsAux]
    · have hdiv : n / 10 ≤ fuel := by
        have := Nat.div_lt_self (Nat.pos_of_ne_zero h0) (by norm_num : 1 < 10)
        omega
      rw [natToCharsAux, if_neg h0, List.foldl_append,
        ih (n / 10) acc hdiv]
      simp only [List.foldl_cons, List.foldl_nil]
      rw [digitChar_toNat (n % 10) (Nat.mod_lt _ (by norm_num)),
        List.length_append, List.length_cons, List.length_nil, pow_succ,
        ← mul_assoc]
      omega

theorem parseIntDigits_natToChars (n : Nat) :
    parseIntDigits (natToChars n) = n := by
  by_cases h0 : n = 0
  · subst h0
    decide
  · rw [natToChars, if_neg h0]
    unfold parseIntDigits
    rw [natToCharsAux_foldl (n + 1) n 0 (by omega)]
    simp

theorem natToChars_mem (n : Nat) :
    ∀ c ∈ natToChars n, ∃ d, d < 10 ∧ c = digitChar d := by
  intro c hc
  by_cases h0 : n = 0
  · subst h0
    simp [natToChars] at hc
    exact ⟨0, by norm_num, hc⟩
  · rw [natToChars, if_neg h0] at hc
    exact natToCharsAux_mem (n + 1) n c hc

theorem natToChars_ne_nil (n : Nat) (h : n ≠ 0) : natToChars n ≠ [] := by
  rw [natToChars, if_neg h, natToCharsAux, if_neg h]
  simp

theorem natToChars_all_digits (n : Nat) :
    allDigitsB (natToChars n) = true := by
  rw [allDigitsB, List.all_eq_true]
  intro c hc
  obtain ⟨d, hd, rfl⟩ := natToChars_mem n c hc
  exact digitChar_lt10_isDigit d hd

theorem natToChars_no_space (n : Nat) :
    ∀ c ∈ natToChars n, isJsSpace c = false := by
  intro c hc
  obtain ⟨d, hd, rfl⟩ := natToChars_mem n c hc
  exact digitChar_not_space d hd

theorem comma_not_mem_natToChars (n : Nat) : ',' ∉ natToChars n := by
  intro hm
  obtain ⟨d, hd, hc⟩ := natToChars_mem n ',' hm
  exact digitChar_ne_comma d hd hc.symm

theorem hyphen_not_mem_natToChars (n : Nat) : '-' ∉ natToChars n := by
  intro hm
  obtain ⟨d, hd, hc⟩ := natToChars_mem n '-' hm
  exact digitChar_ne_hyphen d hd hc.symm

theorem trimChars_natToChars (n : Nat) :
    trimChars (natToChars n) = natToChars n :=
  trimChars_of_no_space _ (natToChars_no_space n)

theorem hyphen_not_mem_of_allDigits (l : List Char)
    (h : allDigitsB l = true) : '-' ∉ l := by
  intro hm
  have := List.all_eq_true.mp h '-' hm
  exact absurd this (by decide)

/-! ## Characterization of the token parser -/

theorem isRangeToken_eq_some_iff (t a b : List Char) :
    isRangeToken t = some (a, b) ↔
      t = a ++ '-' :: b ∧ a ≠ [] ∧ b ≠ [] ∧
        allDigitsB a = true ∧ allDigitsB b = true := by
  constructor
  · intro h
    unfold isRangeToken at h
    rcases hs : splitOnChar '-' t with _ | ⟨x, xs⟩
    · rw [hs] at h
      simp at h
    · rcases xs with _ | ⟨y, ys⟩
      · rw [hs] at h
        simp at h
      · rcases ys with _ | ⟨z, zs⟩
        · rw [hs] at h
          have h' : (if (!x.isEmpty && allDigitsB x && !y.isEmpty &&
              allDigitsB y) = true then some (x, y) else none) =
              some (a, b) := h
          split_ifs at h' with hcond
          have hxy : x = a ∧ y = b := by
            simpa using h'
          obtain ⟨rfl, rfl⟩ := hxy
          have hjoin := joinWithChar_splitOnChar '-' t
          rw [hs] at hjoin
          simp only [Bool.and_eq_true, Bool.not_eq_true'] at hcond
          refine ⟨by rw [← hjoin]; rfl, ?_, ?_, hcond.1.1.2, hcond.2⟩
          · simpa using hcond.1.1.1
          · simpa using hcond.1.2
        · rw [hs] at h
          simp at h
  · rintro ⟨ht, ha, hb, hda, hdb⟩
    have hna : '-' ∉ a := hyphen_not_mem_of_allDigits a hda
    have hnb : '-' ∉ b := hyphen_not_mem_of_allDigits b hdb
    have hs : splitOnChar '-' t = [a, b] := by
      rw [ht]
      exact splitOnChar_pair '-' a b hna hnb
    unfold isRangeToken
    rw [hs]
    simp [ha, hb, hda, hdb]

theorem parseToken_isSome_iff_goodToken (part : List Char) :
    (parseToken part).isSome ↔ goodToken part := by
  cases hr : isRangeToken (trimChars part) with
  | some ab =>
    obtain ⟨a, b⟩ := ab
    obtain ⟨ht, ha, hb, hda, hdb⟩ := (isRangeToken_eq_some_iff _ a b).mp hr
    simp only [parseToken, hr, goodToken]
    by_cases hc : parseIntDigits a < 1 ∨ parseIntDigits b < parseIntDigits a
    · rw [if_pos hc]
      simp only [Option.isSome_none, Bool.false_eq_true, false_iff]
      intro hg
      rcases hg with ⟨hne, hdig, hval⟩ |
        ⟨a', b', ht', ha', hb', hda', hdb', h1, h2⟩
      · refine hyphen_not_mem_of_allDigits _ hdig ?_
        rw [ht]
        exact List.mem_append_right _ (List.mem_cons_self _ _)
      · have hr' : isRangeToken (trimChars part) = some (a', b') :=
          (isRangeToken_eq_some_iff _ a' b').mpr ⟨ht', ha', hb', hda', hdb'⟩
        rw [hr] at hr'
        have hab : a = a' ∧ b = b' := by simpa using hr'
        obtain ⟨he1, he2⟩ := hab
        subst he1
        subst he2
        omega
    · rw [if_neg hc]
      simp only [Option.isSome_some, true_iff]
      exact Or.inr ⟨a, b, ht, ha, hb, hda, hdb, by omega, by omega⟩
  | none =>
    simp only [parseToken, hr, goodToken]
    by_cases hd : (!(trimChars part).isEmpty && allDigitsB (trimChars part)) = true
    · rw [if_pos hd]
      simp only [Bool.and_eq_true, Bool.not_eq_true'] at hd
      by_cases hv : parseIntDigits (trimChars part) < 1
      · rw [if_pos hv]
        simp only [Option.isSome_none, Bool.false_eq_true, false_iff]
        intro hg
        rcases hg with ⟨hne, hdig, hval⟩ |
          ⟨a', b', ht', ha', hb', hda', hdb', h1, h2⟩
        · omega
        · have hr' : isRangeToken (trimChars part) = some (a', b') :=
            (isRangeToken_eq_some_iff _ a' b').mpr
              ⟨ht', ha', hb', hda', hdb'⟩
          rw [hr] at hr'
          exact absurd hr' (by simp)
      · rw [if_neg hv]
        simp only [Option.isSome_some, true_iff]
        refine Or.inl ⟨?_, hd.2, by omega⟩
        simpa using hd.1
    · rw [if_neg hd]
      simp only [Option.isSome_none, Bool.false_eq_true, false_iff]
      intro hg
      rcases hg with ⟨hne, hdig, hval⟩ |
        ⟨a', b', ht', ha', hb', hda', hdb', h1, h2⟩
      · refine hd ?_
        simp only [Bool.and_eq_true, Bool.not_eq_true', hdig, and_true]
        simpa using hne
      · have hr' : isRangeToken (trimChars part) = some (a', b') :=
          (isRangeToken_eq_some_iff _ a' b').mpr ⟨ht', ha', hb', hda', hdb'⟩
        rw [hr] at hr'
        exact absurd hr' (by simp)

theorem parseToken_some_props (part : List Char) (vs : List Nat)
    (h : parseToken part = some vs) : vs ≠ [] ∧ ∀ v ∈ vs, 1 ≤ v := by
  cases hr : isRangeToken (trimChars part) with
  | some ab =>
    obtain ⟨a, b⟩ := ab
    simp only [parseToken, hr] at h
    by_cases hc : parseIntDigits a < 1 ∨ parseIntDigits b < parseIntDigits a
    · rw [if_pos hc] at h
      simp at h
    · rw [if_neg hc] at h
      have hvs : List.range' (parseIntDigits a)
          (parseIntDigits b - parseIntDigits a + 1) = vs := by
        simpa using h
      subst hvs
      constructor
      · intro hnil
        have := congrArg List.length hnil
        simp [List.length_range'] at this
      · intro v hv
        obtain ⟨i, hi, rfl⟩ := List.mem_range'.mp hv
        omega
  | none =>
    simp only [parseToken, hr] at h
    by_cases hd : (!(trimChars part).isEmpty && allDigitsB (trimChars part)) = true
    · rw [if_pos hd] at h
      by_cases hv : parseIntDigits (trimChars part) < 1
      · rw [if_pos hv] at h
        simp at h
      · rw [if_neg hv] at h
        have hvs : [parseIntDigits (trimChars part)] = vs := by simpa using h
        subst hvs
        refine ⟨by simp, ?_⟩
        intro v hv'
        simp at hv'
        omega
    · rw [if_neg hd] at h
      simp at h

theorem parseToken_natToChars (n : Nat) (h : 1 ≤ n) :
    parseToken (natToChars n) = some [n] := by
  have hr : isRangeToken (natToChars n) = none := by
    cases hr : isRangeToken (natToChars n) with
    | none => rfl
    | some ab =>
      obtain ⟨a, b⟩ := ab
      obtain ⟨ht, -, -, -, -⟩ := (isRangeToken_eq_some_iff _ a b).mp hr
      exfalso
      refine hyphen_not_mem_natToChars n ?_
      rw [ht]
      exact List.mem_append_right _ (List.mem_cons_self _ _)
  simp only [parseToken, trimChars_natToChars, hr]
  have hd : (!(natToChars n).isEmpty && allDigitsB (natToChars n)) = true := by
    simp only [Bool.and_eq_true, Bool.not_eq_true', natToChars_all_digits n,
      and_true]
    simpa using natToChars_ne_nil n (by omega)
  rw [if_pos hd, parseIntDigits_natToChars, if_neg (by omega)]

/-! ## Properties of the token loop and of the dedup-sort step -/

theorem collectParts_isSome_iff (ps : List (List Char)) :
    (collectParts ps).isSome ↔ ∀ p ∈ ps, (parseToken p).isSome := by
  induction ps with
  | nil => simp [collectParts]
  | cons p ps ih =>
    cases hp : parseToken p with
    | none => simp [collectParts, hp]
    | some ws =>
      cases hc : collectParts ps with
      | none =>
        rw [hc] at ih
        simp only [Option.isSome_none, Bool.false_eq_true, false_iff] at ih
        simp only [collectParts, hp, hc, Option.isSome_none,
          Bool.false_eq_true, false_iff]
        intro hall
        exact ih fun q hq => hall q (List.mem_cons_of_mem _ hq)
      | some rest =>
        rw [hc] at ih
        simp only [Option.isSome_some, true_iff] at ih
        simp only [collectParts, hp, hc, Option.isSome_some, true_iff]
        intro q hq
        rcases List.mem_cons.mp hq with rfl | hq'
        · simp [hp]
        · exact ih q hq'

theorem collectParts_props (ps : List (List Char)) (vs : List Nat)
    (h : collectParts ps = some vs) :
    (∀ v ∈ vs, 1 ≤ v) ∧ (ps ≠ [] → vs ≠ []) := by
  induction ps generalizing vs with
  | nil =>
    simp only [collectParts, Option.some_inj] at h
    subst h
    exact ⟨by simp, fun hne => absurd rfl hne⟩
  | cons p ps ih =>
    cases hp : parseToken p with
    | none => simp [collectParts, hp] at h
    | some ws =>
      cases hc : collectParts ps with
      | none => simp [collectParts, hp, hc] at h
      | some rest =>
        simp only [collectParts, hp, hc, Option.some_inj] at h
        subst h
        obtain ⟨hwne, hwpos⟩ := parseToken_some_props p ws hp
        obtain ⟨hrpos, -⟩ := ih rest hc
        constructor
        · intro v hv
          rcases List.mem_append.mp hv with h' | h'
          · exact hwpos v h'
          · exact hrpos v h'
        · intro _ hnil
          exact hwne (List.append_eq_nil.mp hnil).1

theorem collectParts_natToChars (vs : List Nat) (h : ∀ v ∈ vs, 1 ≤ v) :
    collectParts (vs.map natToChars) = some vs := by
  induction vs with
  | nil => simp [collectParts]
  | cons v vs ih =>
    simp only [List.map_cons, collectParts,
      parseToken_natToChars v (h v (List.mem_cons_self _ _)),
      ih fun w hw => h w (List.mem_cons_of_mem _ hw)]
    rfl

theorem sortedDedup_sorted (l : List Nat) :
    List.Sorted (· ≤ ·) (sortedDedup l) :=
  List.sorted_insertionSort _ _

theorem sortedDedup_nodup (l : List Nat) : (sortedDedup l).Nodup :=
  (List.perm_insertionSort _ _).nodup_iff.mpr (List.nodup_dedup l)

theorem sortedDedup_pairwise_lt (l : List Nat) :
    List.Pairwise (· < ·) (sortedDedup l) :=
  ((sortedDedup_sorted l).and (sortedDedup_nodup l)).imp
    fun h => lt_of_le_of_ne h.1 h.2

theorem mem_sortedDedup (l : List Nat) (v : Nat) :
    v ∈ sortedDedup l ↔ v ∈ l := by
  simp [sortedDedup, List.mem_insertionSort, List.mem_dedup]

theorem sortedDedup_ne_nil (l : List Nat) (h : l ≠ []) :
    sortedDedup l ≠ [] := by
  obtain ⟨x, hx⟩ := List.exists_mem_of_ne_nil l h
  exact List.ne_nil_of_mem ((mem_sortedDedup l x).mpr hx)

theorem sortedDedup_of_pairwise_lt (l : List Nat)
    (h : List.Pairwise (· < ·) l) : sortedDedup l = l := by
  have hnd : l.Nodup := h.imp ne_of_lt
  have hsort : List.Sorted (· ≤ ·) l := h.imp le_of_lt
  rw [sortedDedup, List.dedup_eq_self.mpr hnd, hsort.insertionSort_eq]

/-! ## The parser-level characterization and round trip -/

theorem parseVerseRange_isSome_iff (s : String) :
    (parseVerseRange s).isSome ↔
      ∀ part ∈ splitOnChar ',' s.data, goodToken part := by
  cases hc : collectParts (splitOnChar ',' s.data) with
  | none =>
    have h1 := collectParts_isSome_iff (splitOnChar ',' s.data)
    rw [hc] at h1
    simp only [Option.isSome_none, Bool.false_eq_true, false_iff] at h1
    simp only [parseVerseRange, hc, Option.isSome_none, Bool.false_eq_true,
      false_iff]
    intro hall
    exact h1 fun p hp => (parseToken_isSome_iff_goodToken p).mpr (hall p hp)
  | some allVerses =>
    have h1 := collectParts_isSome_iff (splitOnChar ',' s.data)
    rw [hc] at h1
    simp only [Option.isSome_some, true_iff] at h1
    have hne : allVerses ≠ [] :=
      (collectParts_props _ _ hc).2 (splitOnChar_ne_nil ',' s.data)
    simp only [parseVerseRange, hc]
    rw [if_neg (by simpa using hne)]
    simp only [Option.isSome_some, true_iff]
    exact fun p hp => (parseToken_isSome_iff_goodToken p).mp (h1 p hp)

theorem parseVerseRange_some_shape (s : String) (vs : List Nat)
    (h : parseVerseRange s = some vs) :
    ∃ allVerses, collectParts (splitOnChar ',' s.data) = some allVerses ∧
      allVerses ≠ [] ∧ vs = sortedDedup allVerses := by
  cases hc : collectParts (splitOnChar ',' s.data) with
  | none => simp [parseVerseRange, hc] at h
  | some allVerses =>
    simp only [parseVerseRange, hc] at h
    by_cases hne : allVerses.isEmpty
    · rw [if_pos hne] at h
      simp at h
    · rw [if_neg hne] at h
      refine ⟨allVerses, rfl, by simpa using hne, ?_⟩
      simpa using h.symm

/-! ## Claim C2: the verse-range grammar -/

/-- C2: the verse-range parser succeeds (returns a result rather than
failing) iff every comma-separated token of the input is, after trimming,
a single positive integer or a range `start-end` of positive integers with
`start ≤ end`; and the parser agrees with all the spec's concrete examples,
returning `null` on malformed tokens, zero values, inverted ranges and the
empty expression. -/
theorem parseVerseRange_grammar :
    (∀ s : String, (parseVerseRange s).isSome ↔
      ∀ part ∈ splitOnChar ',' s.data, goodToken part)
    ∧ parseVerseRange "5" = some [5]
    ∧ parseVerseRange "5-7" = some [5, 6, 7]
    ∧ parseVerseRange "5,7,9-11" = some [5, 7, 9, 10, 11]
    ∧ parseVerseRange "7-5" = none
    ∧ parseVerseRange "0-3" = none
    ∧ parseVerseRange "" = none :=
  ⟨parseVerseRange_isSome_iff, by decide, by decide, by decide, by decide,
   by decide, by decide⟩

/-! ## Claim C9: shape and idempotence of parser output -/

/-- C9: every successful parse is a non-empty, strictly increasing list of
integers all at least 1, and re-parsing the comma-joined canonical string
form of the output returns exactly the same list. -/
theorem parseVerseRange_roundtrip (s : String) (vs : List Nat)
    (h : parseVerseRange s = some vs) :
    vs ≠ [] ∧ List.Pairwise (· < ·) vs ∧ (∀ v ∈ vs, 1 ≤ v) ∧
      parseVerseRange (joinVerses vs) = some vs := by
  obtain ⟨allVerses, hc, hne, hvs⟩ := parseVerseRange_some_shape s vs h
  subst hvs
  have hpos : ∀ v ∈ sortedDedup allVerses, 1 ≤ v := fun v hv =>
    (collectParts_props _ _ hc).1 v ((mem_sortedDedup _ v).mp hv)
  have hvne : sortedDedup allVerses ≠ [] := sortedDedup_ne_nil _ hne
  have hlt := sortedDedup_pairwise_lt allVerses
  refine ⟨hvne, hlt, hpos, ?_⟩
  have hsplit : splitOnChar ',' (joinVerses (sortedDedup allVerses)).data =
      (sortedDedup allVerses).map natToChars := by
    refine splitOnChar_joinWithChar ',' _ ?_ ?_
    · simpa using hvne
    · intro p hp
      obtain ⟨v, hv, rfl⟩ := List.mem_map.mp hp
      exact comma_not_mem_natToChars v
  have hcol : collectParts ((sortedDedup allVerses).map natToChars) =
      some (sortedDedup allVerses) :=
    collectParts_natToChars _ hpos
  simp only [parseVerseRange, hsplit, hcol]
  rw [if_neg (by simpa using hvne), sortedDedup_of_pairwise_lt _ hlt]

/-- C9 witness: parsing `5,7,9-11` yields `[5,7,9,10,11]`, and re-parsing
its comma-joined form returns the same list. -/
theorem parseVerseRange_roundtrip_witness :
    parseVerseRange "5,7,9-11" = some [5, 7, 9, 10, 11] ∧
    parseVerseRange (joinVerses [5, 7, 9, 10, 11]) =
      some [5, 7, 9, 10, 11] :=
  ⟨by decide,
   (parseVerseRange_roundtrip "5,7,9-11" [5, 7, 9, 10, 11] (by decide)).2.2.2⟩
